import Mathlib

/-!
Verification development for the schedule-management core of the
MrSupiri/toolkit backend (src/backend/src/fcm/handler.rs).

The four HTTP handlers (create, list, update, delete) are embedded as pure
Lean functions over an explicit store state; the SQLite statements become
list operations on the store's rows, and the affected-row counts of the
conditional UPDATE/DELETE statements are computed explicitly, mirroring the
source's use of rows_affected().  Time is modelled as an abstract instant
(a natural number of minutes).  The helper functions extract_claims and
decode_cron live in files not part of the reviewed sources, so they are
modelled from the specification, as marked on their doc comments.
-/

namespace Toolkit

/-- JSON values as in serde_json::Value: null, boolean, number, string,
array, or object (a list of key/value fields). -/
inductive JsonValue where
  | null : JsonValue
  | bool (b : Bool) : JsonValue
  | num (n : Int) : JsonValue
  | str (s : String) : JsonValue
  | arr (elems : List JsonValue) : JsonValue
  | obj (fields : List (String × JsonValue)) : JsonValue
deriving Repr

/-- Whether a JSON value is an object, i.e. matches Value::Object(_) in the
payload-validation match of create_schedule and update_schedule. -/
def JsonValue.isObject : JsonValue → Bool
  | .obj _ => true
  | _ => false

/-- The claims extracted from a verified firebase bearer token: the
subject's user id and the audience (firebase project id). -/
structure Claims where
  user_id : String
  aud : String
deriving Repr, DecidableEq

/-- The bearer credential carried by the firebase-auth header, abstracted
to the cases the specification distinguishes: absent, malformed,
failing signature/expiry verification, or valid with a subject and
audience. -/
inductive Credential where
  | missing : Credential
  | malformed : Credential
  | invalid : Credential
  | valid (user_id : String) (aud : String) : Credential
deriving Repr, DecidableEq

/-- Modelled from the spec: extract_claims (fcm/utils.rs, not among the
reviewed sources) is the IdentityVerifier.  Absent or malformed credential
and failed signature/expiry verification yield an AuthError; a valid
credential yields the subject identifier and audience exactly as asserted.
The audience allow-list check is not performed here: in handler.rs it is a
separate check against self.projects, present only in create_schedule. -/
def extract_claims : Credential → Except String Claims
  | .missing => .error "missing credential"
  | .malformed => .error "invalid credential"
  | .invalid => .error "invalid credential"
  | .valid u a => .ok { user_id := u, aud := a }

/-! ## CronEngine (modelled from the spec) -/

/-- A parsed cron expression: one constraint per field
(minute, hour, day, month, weekday); none means the wildcard. -/
structure CronPattern where
  minute : Option Nat
  hour : Option Nat
  day : Option Nat
  month : Option Nat
  weekday : Option Nat
deriving Repr, DecidableEq

/-- Split a character list on spaces. -/
def splitSpaces : List Char → List Char → List (List Char)
  | [], acc => [acc.reverse]
  | c :: rest, acc =>
    if c = ' ' then acc.reverse :: splitSpaces rest []
    else splitSpaces rest (c :: acc)

/-- Parse a nonempty run of decimal digits. -/
def digitsToNat : List Char → Nat → Option Nat
  | [], acc => some acc
  | c :: rest, acc =>
    if '0' ≤ c && c ≤ '9' then digitsToNat rest (acc * 10 + (c.toNat - 48))
    else none

/-- Modelled from the spec: parse one cron field, either the wildcard or a
number within the field's range; anything else (including empty) is
rejected. -/
def parseCronField (cs : List Char) (lo hi : Nat) : Option (Option Nat) :=
  match cs with
  | ['*'] => some none
  | [] => none
  | _ =>
    match digitsToNat cs 0 with
    | some n => if lo ≤ n && n ≤ hi then some (some n) else none
    | none => none

/-- Modelled from the spec: parse a five-field cron expression
(minute hour day month weekday), rejecting empty, malformed, or
out-of-range input. -/
def parseCronPattern (s : String) : Option CronPattern :=
  match splitSpaces s.toList [] with
  | [m, h, d, mo, w] =>
    match parseCronField m 0 59, parseCronField h 0 23, parseCronField d 1 31,
          parseCronField mo 1 12, parseCronField w 0 6 with
    | some fm, some fh, some fd, some fmo, some fw =>
      some { minute := fm, hour := fh, day := fd, month := fmo, weekday := fw }
    | _, _, _, _, _ => none
  | _ => none

/-- Whether a field constraint accepts a value. -/
def cronFieldMatches : Option Nat → Nat → Bool
  | none, _ => true
  | some v, x => v = x

/-- An instant is a count of minutes; the calendar is flattened to
31-day months and 12-month years, with weekdays cycling every 7 days.
A pattern matches an instant when every field constraint accepts the
corresponding component. -/
def cronMatches (p : CronPattern) (t : Nat) : Bool :=
  cronFieldMatches p.minute (t % 60) &&
  cronFieldMatches p.hour (t / 60 % 24) &&
  cronFieldMatches p.day (t / 1440 % 31 + 1) &&
  cronFieldMatches p.month (t / 44640 % 12 + 1) &&
  cronFieldMatches p.weekday (t / 1440 % 7)

/-- Fuel covering a full joint cycle of the calendar and the weekday,
so that a pattern with no occurrence within it has none at all. -/
def cronSearchBound : Nat := 3749760

/-- Linear search for the first matching instant at or after a start. -/
def cronSearch (p : CronPattern) : Nat → Nat → Option Nat
  | 0, _ => none
  | fuel + 1, t => if cronMatches p t then some t else cronSearch p fuel (t + 1)

/-- Modelled from the spec: decode_cron (fcm/utils.rs, not among the
reviewed sources) is CronEngine.decode.  It parses the recurrence pattern
and returns the earliest instant strictly greater than the reference time
that satisfies it; malformed patterns and patterns with no future
occurrence fail with a ValidationError. -/
def decode_cron (pattern : String) (reference_time : Nat) : Except String Nat :=
  match parseCronPattern pattern with
  | none => .error "Invalid cron pattern"
  | some p =>
    match cronSearch p cronSearchBound (reference_time + 1) with
    | some t => .ok t
    | none => .error "No future occurrence"

/-! ## Data model -/

/-- A schedule record, with the columns of the fcm_schedule table as they
appear in the INSERT statement of create_schedule. -/
structure FCMSchedule where
  id : Int
  name : String
  fb_user_id : String
  push_token : String
  fb_project_id : String
  cron_pattern : String
  payload : JsonValue
  last_execution : Nat
  next_execution : Nat
  created_at : Nat
  updated_at : Nat
deriving Repr

/-- The update request body: the fields update_schedule reads from it. -/
structure UpdateSchedule where
  name : String
  push_token : String
  cron_pattern : String
  payload : JsonValue
deriving Repr

/-- The SQLite store: the rows of fcm_schedule and the next rowid the
database will assign. -/
structure Store where
  rows : List FCMSchedule
  next_id : Int
deriving Repr

/-- The WHERE id = ? AND fb_user_id = ? predicate shared by the SELECT,
UPDATE and DELETE statements of update_schedule and delete_schedule. -/
def matchesIdUser (id : Int) (uid : String) (r : FCMSchedule) : Bool :=
  r.id = id && r.fb_user_id = uid

/-- SELECT * FROM fcm_schedule WHERE id = ? AND fb_user_id = ?, fetch_one. -/
def findByIdUser (s : Store) (id : Int) (uid : String) : Option FCMSchedule :=
  s.rows.find? (matchesIdUser id uid)

/-- SELECT * FROM fcm_schedule WHERE fb_user_id = ?, fetch_all. -/
def findByUser (s : Store) (uid : String) : List FCMSchedule :=
  s.rows.filter (fun r => r.fb_user_id = uid)

/-- SELECT * FROM fcm_schedule WHERE id = ?, fetch_one. -/
def findById (s : Store) (id : Int) : Option FCMSchedule :=
  s.rows.find? (fun r => r.id = id)

/-- DELETE FROM fcm_schedule WHERE id = ? AND fb_user_id = ?: returns the
affected-row count and the store after the delete. -/
def deleteWhere (s : Store) (id : Int) (uid : String) : Nat × Store :=
  ((s.rows.filter (matchesIdUser id uid)).length,
   { s with rows := s.rows.filter (fun r => !matchesIdUser id uid r) })

/-- The row produced by the SET clause of the UPDATE statement of
update_schedule: name, push_token, cron_pattern, payload, next_execution
and updated_at are replaced, every other column is untouched. -/
def applyUpdate (upd : UpdateSchedule) (next now : Nat) (r : FCMSchedule) : FCMSchedule :=
  { r with name := upd.name, push_token := upd.push_token,
           cron_pattern := upd.cron_pattern, payload := upd.payload,
           next_execution := next, updated_at := now }

/-- UPDATE fcm_schedule SET ... WHERE id = ? AND fb_user_id = ?: returns
the affected-row count and the store after the update. -/
def updateWhere (s : Store) (id : Int) (uid : String)
    (f : FCMSchedule → FCMSchedule) : Nat × Store :=
  ((s.rows.filter (matchesIdUser id uid)).length,
   { s with rows := s.rows.map (fun r => if matchesIdUser id uid r then f r else r) })

/-- INSERT INTO fcm_schedule: appends the row under the next rowid and
returns last_insert_rowid together with the new store. -/
def insertRow (s : Store) (mk : Int → FCMSchedule) : Int × Store :=
  (s.next_id, { rows := s.rows ++ [mk s.next_id], next_id := s.next_id + 1 })

/-! ## Responses and handlers -/

/-- The response constructors used by the handlers (ResponseObject). -/
inductive ApiResponse (α : Type) where
  | ok (value : α) : ApiResponse α
  | created (value : α) : ApiResponse α
  | unauthorized (msg : String) : ApiResponse α
  | bad_request (msg : String) : ApiResponse α
  | not_found (msg : String) : ApiResponse α
  | internal_server_error (msg : String) : ApiResponse α
deriving Repr

/-- The VALUES row of the INSERT statement of create_schedule: the
client-controlled columns come from the request body, the owner columns
from the verified claims, and the three timestamps are the current time. -/
def newScheduleRow (data : Claims) (body : FCMSchedule) (now next : Nat)
    (rowid : Int) : FCMSchedule :=
  { id := rowid, name := body.name, fb_user_id := data.user_id,
    push_token := body.push_token, fb_project_id := data.aud,
    cron_pattern := body.cron_pattern, payload := body.payload,
    last_execution := now, next_execution := next,
    created_at := now, updated_at := now }

/-- create_schedule: verify the credential; check the audience against the
configured project allow-list; validate that the payload field is a JSON
object; decode the cron pattern; insert the row with owner fields taken
from the verified claims and last_execution = created_at = updated_at =
the current time; re-select the inserted row by rowid and return it. -/
def create_schedule (projects : List String) (cred : Credential)
    (body : FCMSchedule) (now : Nat) (s : Store) :
    ApiResponse FCMSchedule × Store :=
  match extract_claims cred with
  | .error e => (.unauthorized e, s)
  | .ok data =>
    if !(projects.contains data.aud) then
      (.unauthorized "Invalid project id", s)
    else if !body.payload.isObject then
      (.bad_request "Invalid payload", s)
    else
      match decode_cron body.cron_pattern now with
      | .error e => (.bad_request e, s)
      | .ok next_execution =>
        let inserted := insertRow s (newScheduleRow data body now next_execution)
        match findById inserted.2 inserted.1 with
        | none => (.internal_server_error "row not found", inserted.2)
        | some schedule => (.created schedule, inserted.2)

/-- find_all_schedules: verify the credential, then return every row whose
fb_user_id equals the verified user id.  No allow-list check and no
audience condition appear in the source. -/
def find_all_schedules (cred : Credential) (s : Store) :
    ApiResponse (List FCMSchedule) × Store :=
  match extract_claims cred with
  | .error e => (.unauthorized e, s)
  | .ok data => (.ok (findByUser s data.user_id), s)

/-- delete_schedule: verify the credential; select the row by id and
verified user id (not found on failure); run the conditional DELETE; a
zero affected-row count is not found; otherwise return the pre-delete
snapshot. -/
def delete_schedule (cred : Credential) (id : Int) (s : Store) :
    ApiResponse FCMSchedule × Store :=
  match extract_claims cred with
  | .error e => (.unauthorized e, s)
  | .ok data =>
    let fb_user_id := data.user_id
    match findByIdUser s id fb_user_id with
    | none => (.not_found "Schedule not found", s)
    | some schedule =>
      let result := deleteWhere s id fb_user_id
      if result.1 = 0 then (.not_found "Schedule not found", result.2)
      else (.ok schedule, result.2)

/-- update_schedule: verify the credential; select the row by id and
verified user id (not found on failure); validate the payload is a JSON
object; decode the cron pattern; run the conditional UPDATE (zero
affected rows is not found); re-select the row and return it. -/
def update_schedule (cred : Credential) (id : Int) (body : UpdateSchedule)
    (now : Nat) (s : Store) : ApiResponse FCMSchedule × Store :=
  match extract_claims cred with
  | .error e => (.unauthorized e, s)
  | .ok data =>
    let fb_user_id := data.user_id
    match findByIdUser s id fb_user_id with
    | none => (.not_found "Schedule not found", s)
    | some _ =>
      if !body.payload.isObject then
        (.bad_request "Invalid payload", s)
      else
        match decode_cron body.cron_pattern now with
        | .error e => (.bad_request e, s)
        | .ok next_execution =>
          let current_time := now
          let result := updateWhere s id fb_user_id
            (applyUpdate body next_execution current_time)
          if result.1 = 0 then (.not_found "Schedule not found", result.2)
          else
            match findByIdUser result.2 id fb_user_id with
            | none => (.internal_server_error "row not found", result.2)
            | some schedule => (.ok schedule, result.2)

/-! ## Two racing deletes: a small-step interleaving model

delete_schedule performs two separate store accesses after the identity
check: the advisory SELECT and the conditional DELETE.  The race model
runs two such threads over one shared store under an arbitrary
interleaving; each scheduler step lets one thread execute its next store
statement. -/

/-- The control point of one delete call inside its store accesses:
before the SELECT, after a successful SELECT (holding the pre-delete
snapshot), or finished with a response. -/
inductive DelThread where
  | start : DelThread
  | looked (snap : FCMSchedule) : DelThread
  | done (res : ApiResponse FCMSchedule) : DelThread
deriving Repr

/-- One store statement of delete_schedule: the SELECT (yielding
not-found or the snapshot) or the conditional DELETE (its affected-row
count is authoritative: zero is not-found, otherwise the snapshot is
returned). -/
def delStep (id : Int) (uid : String) : DelThread → Store → DelThread × Store
  | .start, s =>
    match findByIdUser s id uid with
    | none => (.done (.not_found "Schedule not found"), s)
    | some r => (.looked r, s)
  | .looked r, s =>
    let result := deleteWhere s id uid
    if result.1 = 0 then (.done (.not_found "Schedule not found"), result.2)
    else (.done (.ok r), result.2)
  | .done res, s => (.done res, s)

/-- Let the first (true) or second (false) thread run one statement. -/
def raceStep (id : Int) (uid : String) (b : Bool)
    (st : DelThread × DelThread × Store) : DelThread × DelThread × Store :=
  if b then
    let r := delStep id uid st.1 st.2.2
    (r.1, st.2.1, r.2)
  else
    let r := delStep id uid st.2.1 st.2.2
    (st.1, r.1, r.2)

/-- Run the two threads under an interleaving given as a scheduler
trace. -/
def runSched (id : Int) (uid : String) :
    List Bool → DelThread × DelThread × Store → DelThread × DelThread × Store
  | [], st => st
  | b :: rest, st => runSched id uid rest (raceStep id uid b st)

/-- How many rows the conditional DELETE for (id, uid) would affect. -/
def countMatch (s : Store) (id : Int) (uid : String) : Nat :=
  (s.rows.filter (matchesIdUser id uid)).length

/-- One when the thread finished with a success response, else zero. -/
def okCount : DelThread → Nat
  | .done (.ok _) => 1
  | _ => 0

/-- Whether the thread has finished. -/
def isDoneT : DelThread → Bool
  | .done _ => true
  | _ => false

/-- Per-thread soundness: a held snapshot or returned record is the unique
matching row, and a finished thread answered success or not-found. -/
def ThreadOk (r0 : FCMSchedule) : DelThread → Prop
  | .start => True
  | .looked r => r = r0
  | .done res => res = .ok r0 ∨ res = .not_found "Schedule not found"

/-- The race invariant: both threads are sound, every matching row still
in the store is the original record, the matching rows plus the successes
always total one, and a finished thread implies the row is gone. -/
def RaceInv (id : Int) (uid : String) (r0 : FCMSchedule)
    (st : DelThread × DelThread × Store) : Prop :=
  ThreadOk r0 st.1 ∧ ThreadOk r0 st.2.1 ∧
  (∀ r ∈ st.2.2.rows, matchesIdUser id uid r = true → r = r0) ∧
  countMatch st.2.2 id uid + okCount st.1 + okCount st.2.1 = 1 ∧
  (isDoneT st.1 = true → countMatch st.2.2 id uid = 0) ∧
  (isDoneT st.2.1 = true → countMatch st.2.2 id uid = 0)

/-! ## Example values used by concrete witnesses -/

/-- A create request body that carries conflicting owner fields and
timestamps, all of which the handler must ignore. -/
def exBody : FCMSchedule :=
  { id := 99, name := "my job", fb_user_id := "attacker",
    push_token := "tok", fb_project_id := "evil",
    cron_pattern := "* * * * *", payload := .obj [("k", .num 1)],
    last_execution := 77, next_execution := 77, created_at := 77,
    updated_at := 77 }

/-- The empty store. -/
def emptyStore : Store := { rows := [], next_id := 1 }

/-- The row create_schedule inserts for exBody at time 0 as user u1 of
project p1. -/
def exCreatedRow : FCMSchedule :=
  { id := 1, name := "my job", fb_user_id := "u1", push_token := "tok",
    fb_project_id := "p1", cron_pattern := "* * * * *",
    payload := .obj [("k", .num 1)], last_execution := 0,
    next_execution := 1, created_at := 0, updated_at := 0 }

/-- An update request body reused by several witnesses. -/
def exUpd : UpdateSchedule :=
  { name := "renamed", push_token := "tok2", cron_pattern := "* * * * *",
    payload := .obj [] }

/-- A store holding exactly the row exCreatedRow (owned by u1/p1). -/
def exStore : Store := { rows := [exCreatedRow], next_id := 2 }

/-- The row exCreatedRow after update_schedule applies exUpd at time 5. -/
def exUpdatedRow : FCMSchedule :=
  { id := 1, name := "renamed", fb_user_id := "u1", push_token := "tok2",
    fb_project_id := "p1", cron_pattern := "* * * * *",
    payload := .obj [], last_execution := 0,
    next_execution := 6, created_at := 0, updated_at := 5 }

/-! ## Helper lemmas -/

theorem cronSearch_le (p : CronPattern) :
    ∀ fuel s t, cronSearch p fuel s = some t → s ≤ t := by
  intro fuel
  induction fuel with
  | zero => intro s t h; simp [cronSearch] at h
  | succ n ih =>
    intro s t h
    simp only [cronSearch] at h
    split at h
    · cases h; exact Nat.le_refl _
    · have := ih (s + 1) t h
      omega

theorem decode_cron_error_msg (pat : String) (ref : Nat) (e : String)
    (h : decode_cron pat ref = .error e) :
    e = "Invalid cron pattern" ∨ e = "No future occurrence" := by
  unfold decode_cron at h
  split at h
  · cases h; left; rfl
  · split at h
    · cases h
    · cases h; right; rfl

theorem findByIdUser_eq_none_of_no_owner (s : Store) (id : Int) (uid : String)
    (h : ∀ r ∈ s.rows, r.id = id → r.fb_user_id ≠ uid) :
    findByIdUser s id uid = none := by
  apply List.find?_eq_none.mpr
  intro r hr
  simp only [matchesIdUser, Bool.and_eq_true, decide_eq_true_eq, not_and]
  intro hid
  exact h r hr hid

theorem findById_insertRow (s : Store) (mk : Int → FCMSchedule)
    (hwf : ∀ r ∈ s.rows, r.id < s.next_id)
    (hmk : (mk s.next_id).id = s.next_id) :
    findById (insertRow s mk).2 (insertRow s mk).1 = some (mk s.next_id) := by
  simp only [insertRow, findById]
  rw [List.find?_append]
  have hnone : s.rows.find? (fun r => r.id = s.next_id) = none := by
    apply List.find?_eq_none.mpr
    intro r hr
    simp only [decide_eq_true_eq]
    exact Int.ne_of_lt (hwf r hr)
  rw [hnone]
  simp [hmk]

theorem find?_map_guard (p : FCMSchedule → Bool) (f : FCMSchedule → FCMSchedule)
    (hpres : ∀ r, p r = true → p (f r) = true) :
    ∀ l : List FCMSchedule,
      List.find? p (l.map (fun r => if p r then f r else r)) =
        (List.find? p l).map f := by
  intro l
  induction l with
  | nil => rfl
  | cons a l ih =>
    by_cases ha : p a = true
    · simp [List.find?_cons, ha, hpres a ha]
    · simp only [Bool.not_eq_true] at ha
      simp [List.find?_cons, ha, ih]

/-! ## C6: CronEngine strictness and determinism -/

/-- C6: for every valid recurrence pattern and reference time, decode_cron
returns an instant strictly greater than the reference time, and two calls
with identical inputs yield identical outputs. -/
theorem decode_cron_strictly_after_and_deterministic
    (pat : String) (ref t : Nat) :
    (decode_cron pat ref = .ok t → ref < t) ∧
    decode_cron pat ref = decode_cron pat ref := by
  refine ⟨?_, rfl⟩
  intro h
  unfold decode_cron at h
  split at h
  · cases h
  · split at h
    · cases h
      have := cronSearch_le _ cronSearchBound (ref + 1) t (by assumption)
      omega
    · cases h

/-- Witness for C6 at the pattern matching every minute and reference 5. -/
theorem decode_cron_strictly_after_witness :
    decode_cron "* * * * *" 5 = .ok 6 ∧ 5 < 6 :=
  ⟨rfl, (decode_cron_strictly_after_and_deterministic "* * * * *" 5 6).1 rfl⟩

/-! ## Create: success characterization (shared by C3 and C7) -/

theorem create_schedule_success_inv
    (projects : List String) (cred : Credential) (claims : Claims)
    (body : FCMSchedule) (now : Nat) (s : Store) (sched : FCMSchedule) (s1 : Store)
    (hwf : ∀ r ∈ s.rows, r.id < s.next_id)
    (hc : extract_claims cred = .ok claims)
    (h : create_schedule projects cred body now s = (.created sched, s1)) :
    ∃ next, decode_cron body.cron_pattern now = .ok next ∧
      sched = newScheduleRow claims body now next s.next_id ∧
      s1 = { rows := s.rows ++ [sched], next_id := s.next_id + 1 } := by
  unfold create_schedule at h
  rw [hc] at h
  simp only [] at h
  split at h
  · simp at h
  · split at h
    · simp at h
    · split at h
      · simp at h
      · rename_i next hdec
        rw [findById_insertRow s (newScheduleRow claims body now next) hwf rfl] at h
        simp only [insertRow] at h
        obtain ⟨hs, hst⟩ := Prod.mk.injEq .. ▸ h
        cases hs
        refine ⟨next, hdec, rfl, ?_⟩
        exact hst.symm ▸ rfl

/-! ## C3: create stamps owner fields from the verified identity -/

/-- C3: on every successful create, the stored record's owner columns equal
the verified claims' user id and audience, whatever owner values the
request body carried. -/
theorem create_owner_fields_from_verified_identity
    (projects : List String) (cred : Credential) (claims : Claims)
    (body : FCMSchedule) (now : Nat) (s : Store) (sched : FCMSchedule) (s1 : Store)
    (hwf : ∀ r ∈ s.rows, r.id < s.next_id)
    (hc : extract_claims cred = .ok claims)
    (h : create_schedule projects cred body now s = (.created sched, s1)) :
    sched.fb_user_id = claims.user_id ∧ sched.fb_project_id = claims.aud := by
  obtain ⟨next, _, hsched, _⟩ :=
    create_schedule_success_inv projects cred claims body now s sched s1 hwf hc h
  subst hsched
  exact ⟨rfl, rfl⟩

/-- Witness for C3: the body claims owner "attacker"/"evil", yet the stored
row is owned by the verified identity u1/p1. -/
theorem create_owner_fields_witness :
    create_schedule ["p1"] (.valid "u1" "p1") exBody 0 emptyStore =
      (.created exCreatedRow, { rows := [exCreatedRow], next_id := 2 }) ∧
    exCreatedRow.fb_user_id = "u1" ∧ exCreatedRow.fb_project_id = "p1" :=
  ⟨rfl, create_owner_fields_from_verified_identity ["p1"] (.valid "u1" "p1")
    { user_id := "u1", aud := "p1" } exBody 0 emptyStore exCreatedRow
    { rows := [exCreatedRow], next_id := 2 } (by simp [emptyStore]) rfl rfl⟩

/-! ## C7: create sets the timestamps and persists one new row -/

/-- C7: on every successful create, the returned record has
last_execution = created_at = now, next_execution is the value decoded
from the recurrence pattern, and the store gained exactly that record. -/
theorem create_success_timestamps_and_row
    (projects : List String) (cred : Credential) (claims : Claims)
    (body : FCMSchedule) (now : Nat) (s : Store) (sched : FCMSchedule) (s1 : Store)
    (hwf : ∀ r ∈ s.rows, r.id < s.next_id)
    (hc : extract_claims cred = .ok claims)
    (h : create_schedule projects cred body now s = (.created sched, s1)) :
    sched.last_execution = now ∧ sched.created_at = now ∧
    decode_cron body.cron_pattern now = .ok sched.next_execution ∧
    s1.rows = s.rows ++ [sched] := by
  obtain ⟨next, hdec, hsched, hs1⟩ :=
    create_schedule_success_inv projects cred claims body now s sched s1 hwf hc h
  subst hsched
  subst hs1
  exact ⟨rfl, rfl, hdec, rfl⟩

/-- Witness for C7 at the same concrete create call as C3's witness. -/
theorem create_success_timestamps_witness :
    create_schedule ["p1"] (.valid "u1" "p1") exBody 0 emptyStore =
      (.created exCreatedRow, { rows := [exCreatedRow], next_id := 2 }) ∧
    exCreatedRow.last_execution = 0 ∧ exCreatedRow.created_at = 0 ∧
    decode_cron "* * * * *" 0 = .ok exCreatedRow.next_execution :=
  ⟨rfl,
   let h := create_success_timestamps_and_row ["p1"] (.valid "u1" "p1")
     { user_id := "u1", aud := "p1" } exBody 0 emptyStore exCreatedRow
     { rows := [exCreatedRow], next_id := 2 } (by simp [emptyStore]) rfl rfl
   ⟨h.1, h.2.1, h.2.2.1⟩⟩

/-! ## Not-found behaviour of update and delete -/

theorem delete_not_found_of_none (cred : Credential) (claims : Claims)
    (id : Int) (s : Store)
    (hc : extract_claims cred = .ok claims)
    (hn : findByIdUser s id claims.user_id = none) :
    delete_schedule cred id s = (.not_found "Schedule not found", s) := by
  simp [delete_schedule, hc, hn]

theorem update_not_found_of_none (cred : Credential) (claims : Claims)
    (id : Int) (upd : UpdateSchedule) (now : Nat) (s : Store)
    (hc : extract_claims cred = .ok claims)
    (hn : findByIdUser s id claims.user_id = none) :
    update_schedule cred id upd now s = (.not_found "Schedule not found", s) := by
  simp [update_schedule, hc, hn]

/-! ## C4: foreign or nonexistent ids are indistinguishable -/

/-- C4: when no row pairs the requested id with the caller's verified user
(the id is absent, or every row with that id is owned by someone else),
update and delete both answer with the very same not-found response and
leave the store untouched. -/
theorem update_delete_not_found_on_foreign_or_missing_id
    (cred : Credential) (claims : Claims) (id : Int) (upd : UpdateSchedule)
    (now : Nat) (s : Store)
    (hc : extract_claims cred = .ok claims)
    (hno : ∀ r ∈ s.rows, r.id = id → r.fb_user_id ≠ claims.user_id) :
    delete_schedule cred id s = (.not_found "Schedule not found", s) ∧
    update_schedule cred id upd now s = (.not_found "Schedule not found", s) := by
  have hn := findByIdUser_eq_none_of_no_owner s id claims.user_id hno
  exact ⟨delete_not_found_of_none cred claims id s hc hn,
         update_not_found_of_none cred claims id upd now s hc hn⟩

/-- Witness for C4: user u2 calling delete and update on u1's schedule id 1
gets the not-found response. -/
theorem update_delete_not_found_witness :
    delete_schedule (.valid "u2" "p1") 1 exStore =
      (.not_found "Schedule not found", exStore) ∧
    update_schedule (.valid "u2" "p1") 1 exUpd 5 exStore =
      (.not_found "Schedule not found", exStore) :=
  update_delete_not_found_on_foreign_or_missing_id (.valid "u2" "p1")
    { user_id := "u2", aud := "p1" } 1 exUpd 5 exStore rfl
    (by intro r hr hid
        simp only [exStore, exCreatedRow, List.mem_singleton] at hr
        subst hr
        simp)

/-! ## C8: the payload must be a JSON object -/

/-- C8: create and update reject any payload that is not a JSON object
with the bad-request response and leave the store unchanged, and a payload
that is a JSON object never produces that response.  The update parts
assume the ownership-scoped lookup succeeds (otherwise C10 applies), and
the create parts assume the audience is allow-listed. -/
theorem payload_must_be_json_object
    (projects : List String) (cred : Credential) (claims : Claims)
    (body : FCMSchedule) (upd : UpdateSchedule) (id : Int) (now : Nat)
    (s : Store) (r : FCMSchedule)
    (hc : extract_claims cred = .ok claims)
    (hp : projects.contains claims.aud = true)
    (hr : findByIdUser s id claims.user_id = some r) :
    (body.payload.isObject = false →
       create_schedule projects cred body now s = (.bad_request "Invalid payload", s)) ∧
    (body.payload.isObject = true →
       (create_schedule projects cred body now s).1 ≠ .bad_request "Invalid payload") ∧
    (upd.payload.isObject = false →
       update_schedule cred id upd now s = (.bad_request "Invalid payload", s)) ∧
    (upd.payload.isObject = true →
       (update_schedule cred id upd now s).1 ≠ .bad_request "Invalid payload") := by
  have hmem : claims.aud ∈ projects := by simpa using hp
  refine ⟨?_, ?_, ?_, ?_⟩
  · intro hobj
    simp [create_schedule, hc, hmem, hobj]
  · intro hobj
    simp only [create_schedule, hc, hp, hobj, Bool.not_true, Bool.false_eq_true,
      if_false, if_true, Bool.not_false]
    cases hdec : decode_cron body.cron_pattern now with
    | error e =>
      simp only []
      intro hEq
      injection hEq with hmsg
      rcases decode_cron_error_msg body.cron_pattern now e hdec with h1 | h1 <;>
        simp [h1] at hmsg
    | ok next =>
      cases hfind : findById (insertRow s (newScheduleRow claims body now next)).2
          (insertRow s (newScheduleRow claims body now next)).1 with
      | none => simp [hfind]
      | some sched => simp [hfind]
  · intro hobj
    simp [update_schedule, hc, hr, hobj]
  · intro hobj
    simp only [update_schedule, hc, hr, hobj, Bool.not_true, Bool.false_eq_true,
      if_false, if_true, Bool.not_false]
    cases hdec : decode_cron upd.cron_pattern now with
    | error e =>
      simp only []
      intro hEq
      injection hEq with hmsg
      rcases decode_cron_error_msg upd.cron_pattern now e hdec with h1 | h1 <;>
        simp [h1] at hmsg
    | ok next =>
      cases hcount : (updateWhere s id claims.user_id (applyUpdate upd next now)).1 with
      | zero => simp [hcount]
      | succ n =>
        simp only [hcount]
        cases hfind : findByIdUser
            (updateWhere s id claims.user_id (applyUpdate upd next now)).2 id
            claims.user_id with
        | none => simp [hfind]
        | some sched => simp [hfind]

/-- Witness for C8: u1 hits create with an array payload and update with a
null payload; both are rejected without a write, while object payloads are
never rejected for their payload. -/
theorem payload_must_be_json_object_witness :
    (JsonValue.arr []).isObject = false ∧
    create_schedule ["p1"] (.valid "u1" "p1")
        { exBody with payload := .arr [] } 0 exStore =
      (.bad_request "Invalid payload", exStore) ∧
    update_schedule (.valid "u1" "p1") 1 { exUpd with payload := .null } 5 exStore =
      (.bad_request "Invalid payload", exStore) :=
  let h := payload_must_be_json_object ["p1"] (.valid "u1" "p1")
    { user_id := "u1", aud := "p1" } { exBody with payload := .arr [] }
    { exUpd with payload := .null } 1 5 exStore exCreatedRow rfl rfl rfl
  ⟨rfl, h.1 rfl, h.2.2.1 rfl⟩

/-! ## C10: update looks the record up before validating the body -/

/-- C10: update returns not-found for an id the caller does not own even
when the body is invalid (the lookup runs first), and every bad-request
outcome of update implies the ownership-scoped lookup had succeeded. -/
theorem update_lookup_precedes_validation
    (cred : Credential) (claims : Claims) (id : Int) (upd : UpdateSchedule)
    (now : Nat) (s : Store)
    (hc : extract_claims cred = .ok claims) :
    (findByIdUser s id claims.user_id = none →
       update_schedule cred id upd now s = (.not_found "Schedule not found", s)) ∧
    (∀ e s1, update_schedule cred id upd now s = (.bad_request e, s1) →
       ∃ r, findByIdUser s id claims.user_id = some r) := by
  constructor
  · intro hn
    exact update_not_found_of_none cred claims id upd now s hc hn
  · intro e s1 h
    cases hfind : findByIdUser s id claims.user_id with
    | none =>
      rw [update_not_found_of_none cred claims id upd now s hc hfind] at h
      simp at h
    | some r => exact ⟨r, rfl⟩

/-- Witness for C10: updating a nonexistent id 42 with a null payload
(invalid) still answers not-found, not bad-request. -/
theorem update_lookup_precedes_validation_witness :
    findByIdUser exStore 42 "u1" = none ∧
    update_schedule (.valid "u1" "p1") 42 { exUpd with payload := .null } 5 exStore =
      (.not_found "Schedule not found", exStore) :=
  ⟨rfl,
   (update_lookup_precedes_validation (.valid "u1" "p1")
     { user_id := "u1", aud := "p1" } 42 { exUpd with payload := .null } 5
     exStore rfl).1 rfl⟩

/-! ## C2 (corrected): the audience allow-list is enforced by create only -/

/-- Counterexample to C2 as stated: a valid credential for audience p2,
which is not in the configured allow-list containing only p1, still
reaches the store through find_all_schedules and receives the rows
instead of an unauthorized response. -/
theorem allowlist_not_checked_in_list_cex :
    (("p2" ∈ (["p1"] : List String)) = False) ∧
    find_all_schedules (.valid "u1" "p2") exStore = (.ok [exCreatedRow], exStore) := by
  constructor
  · simp
  · rfl

/-- C2 amended: create with a valid credential whose audience is not
allow-listed fails unauthorized with no store access, while list, update
and delete never return an unauthorized response once the credential
itself verifies, whatever the audience. -/
theorem allowlist_enforced_only_in_create
    (projects : List String) (cred : Credential) (claims : Claims)
    (body : FCMSchedule) (id : Int) (upd : UpdateSchedule) (now : Nat) (s : Store)
    (hc : extract_claims cred = .ok claims)
    (hnp : claims.aud ∉ projects) :
    create_schedule projects cred body now s = (.unauthorized "Invalid project id", s) ∧
    (∀ m, (find_all_schedules cred s).1 ≠ .unauthorized m) ∧
    (∀ m, (delete_schedule cred id s).1 ≠ .unauthorized m) ∧
    (∀ m, (update_schedule cred id upd now s).1 ≠ .unauthorized m) := by
  refine ⟨?_, ?_, ?_, ?_⟩
  · simp [create_schedule, hc, hnp]
  · intro m
    simp [find_all_schedules, hc]
  · intro m
    simp only [delete_schedule, hc]
    cases hfind : findByIdUser s id claims.user_id with
    | none => simp
    | some r =>
      simp only []
      split <;> simp
  · intro m
    simp only [update_schedule, hc]
    cases hfind : findByIdUser s id claims.user_id with
    | none => simp
    | some r =>
      simp only []
      split
      · simp
      · cases hdec : decode_cron upd.cron_pattern now with
        | error e => simp
        | ok next =>
          simp only []
          split
          · simp
          · split <;> simp

/-- Witness for the amended C2 at audience p2 against allow-list p1. -/
theorem allowlist_enforced_only_in_create_witness :
    (("p2" ∈ (["p1"] : List String)) = False) ∧
    create_schedule ["p1"] (.valid "u1" "p2") exBody 0 exStore =
      (.unauthorized "Invalid project id", exStore) :=
  ⟨by simp,
   (allowlist_enforced_only_in_create ["p1"] (.valid "u1" "p2")
     { user_id := "u1", aud := "p2" } exBody 1 exUpd 0 exStore rfl
     (by simp)).1⟩

/-! ## C1 (corrected): ownership is scoped by the verified user id only -/

/-- Counterexample to C1 as stated: the schedule is owned by audience p1,
yet a request verified for the same user and the different audience p2
deletes it and receives the record. -/
theorem ownership_ignores_audience_cex :
    exCreatedRow.fb_project_id = "p1" ∧
    delete_schedule (.valid "u1" "p2") 1 exStore =
      (.ok exCreatedRow, { rows := [], next_id := 2 }) := by
  exact ⟨rfl, rfl⟩

/-- C1 amended: every operation scopes schedules by the verified user id
alone.  list returns exactly the caller-user's rows; when no row pairs the
id with the caller's user, update and delete answer not-found and change
nothing; and a row of a different user is never removed or altered by
delete or update. -/
theorem ownership_scoped_by_user_id
    (cred : Credential) (claims : Claims) (id : Int) (upd : UpdateSchedule)
    (now : Nat) (s : Store)
    (hc : extract_claims cred = .ok claims) :
    ((find_all_schedules cred s).1 = .ok (findByUser s claims.user_id) ∧
     ∀ r ∈ findByUser s claims.user_id, r.fb_user_id = claims.user_id) ∧
    ((∀ r ∈ s.rows, r.id = id → r.fb_user_id ≠ claims.user_id) →
       delete_schedule cred id s = (.not_found "Schedule not found", s) ∧
       update_schedule cred id upd now s = (.not_found "Schedule not found", s)) ∧
    (∀ r ∈ s.rows, r.fb_user_id ≠ claims.user_id →
       r ∈ (delete_schedule cred id s).2.rows ∧
       r ∈ (update_schedule cred id upd now s).2.rows) := by
  refine ⟨⟨?_, ?_⟩, ?_, ?_⟩
  · simp [find_all_schedules, hc]
  · intro r hr
    have := List.mem_filter.mp hr
    simpa using this.2
  · intro hno
    have hn := findByIdUser_eq_none_of_no_owner s id claims.user_id hno
    exact ⟨delete_not_found_of_none cred claims id s hc hn,
           update_not_found_of_none cred claims id upd now s hc hn⟩
  · intro r hr hne
    have hmatch : matchesIdUser id claims.user_id r = false := by
      simp [matchesIdUser, hne]
    constructor
    · simp only [delete_schedule, hc]
      cases hfind : findByIdUser s id claims.user_id with
      | none => exact hr
      | some r0 =>
        simp only []
        have hmem : r ∈ (deleteWhere s id claims.user_id).2.rows := by
          simp only [deleteWhere]
          exact List.mem_filter.mpr ⟨hr, by simp [hmatch]⟩
        split <;> exact hmem
    · simp only [update_schedule, hc]
      cases hfind : findByIdUser s id claims.user_id with
      | none => exact hr
      | some r0 =>
        simp only []
        split
        · exact hr
        · cases hdec : decode_cron upd.cron_pattern now with
          | error e => exact hr
          | ok next =>
            simp only []
            have hmem : r ∈ (updateWhere s id claims.user_id
                (applyUpdate upd next now)).2.rows := by
              simp only [updateWhere]
              have hgr : (fun x => if matchesIdUser id claims.user_id x then
                  applyUpdate upd next now x else x) r = r := by
                simp [hmatch]
              rw [← hgr]
              exact List.mem_map_of_mem _ hr
            split
            · exact hmem
            · split <;> exact hmem

/-- Witness for the amended C1: user u2 sees an empty list over a store
owned by u1, and u1's row survives u2's delete and update attempts. -/
theorem ownership_scoped_by_user_id_witness :
    (find_all_schedules (.valid "u2" "p1") exStore).1 = .ok [] ∧
    exCreatedRow ∈ (delete_schedule (.valid "u2" "p1") 7 exStore).2.rows ∧
    exCreatedRow ∈ (update_schedule (.valid "u2" "p1") 7 exUpd 5 exStore).2.rows := by
  have h := ownership_scoped_by_user_id (.valid "u2" "p1")
    { user_id := "u2", aud := "p1" } 7 exUpd 5 exStore rfl
  have hmem : exCreatedRow ∈ exStore.rows := by simp [exStore]
  have hne : exCreatedRow.fb_user_id ≠ "u2" := by simp [exCreatedRow]
  have h3 := h.2.2 exCreatedRow hmem hne
  exact ⟨h.1.1, h3.1, h3.2⟩

/-! ## C9: update leaves the identity and creation fields unchanged -/

theorem findByIdUser_updateWhere (s : Store) (id : Int) (uid : String)
    (upd : UpdateSchedule) (next now : Nat) :
    findByIdUser (updateWhere s id uid (applyUpdate upd next now)).2 id uid =
      (findByIdUser s id uid).map (applyUpdate upd next now) := by
  simp only [findByIdUser, updateWhere]
  exact find?_map_guard _ _
    (fun r h => by simpa [matchesIdUser, applyUpdate] using h) s.rows

/-- C9: on every successful update, every row of the store keeps its id,
owner fields, created_at and last_execution, and the returned record keeps
those same fields of the row the lookup found. -/
theorem update_preserves_identity_fields
    (cred : Credential) (claims : Claims) (id : Int) (upd : UpdateSchedule)
    (now : Nat) (s : Store) (sched : FCMSchedule) (s1 : Store)
    (hc : extract_claims cred = .ok claims)
    (h : update_schedule cred id upd now s = (.ok sched, s1)) :
    List.Forall₂ (fun old new => new.id = old.id ∧
      new.fb_user_id = old.fb_user_id ∧ new.fb_project_id = old.fb_project_id ∧
      new.created_at = old.created_at ∧ new.last_execution = old.last_execution)
      s.rows s1.rows ∧
    ∃ r, findByIdUser s id claims.user_id = some r ∧
      sched.id = r.id ∧ sched.fb_user_id = r.fb_user_id ∧
      sched.fb_project_id = r.fb_project_id ∧ sched.created_at = r.created_at ∧
      sched.last_execution = r.last_execution := by
  simp only [update_schedule, hc] at h
  cases hfind : findByIdUser s id claims.user_id with
  | none => rw [hfind] at h; simp at h
  | some r0 =>
    rw [hfind] at h
    simp only [] at h
    split at h
    · simp at h
    · split at h
      · simp at h
      · rename_i next hdec
        split at h
        · simp at h
        · rw [findByIdUser_updateWhere s id claims.user_id upd next now,
            hfind] at h
          rw [Option.map_some'] at h
          obtain ⟨hres, hst⟩ := Prod.mk.injEq .. ▸ h
          cases hres
          constructor
          · rw [← hst]
            simp only [updateWhere]
            rw [List.forall₂_map_right_iff]
            rw [List.forall₂_same]
            intro x _
            by_cases hx : matchesIdUser id claims.user_id x = true
            · simp [hx, applyUpdate]
            · simp only [Bool.not_eq_true] at hx
              simp [hx]
          · exact ⟨r0, rfl, rfl, rfl, rfl, rfl, rfl⟩

/-- Witness for C9: u1 updates schedule 1 with exUpd at time 5; the
updated record keeps id 1, owner u1/p1, created_at 0 and
last_execution 0. -/
theorem update_preserves_identity_fields_witness :
    update_schedule (.valid "u1" "p1") 1 exUpd 5 exStore =
      (.ok exUpdatedRow, { rows := [exUpdatedRow], next_id := 2 }) ∧
    exUpdatedRow.id = exCreatedRow.id ∧
    exUpdatedRow.fb_user_id = exCreatedRow.fb_user_id ∧
    exUpdatedRow.fb_project_id = exCreatedRow.fb_project_id ∧
    exUpdatedRow.created_at = exCreatedRow.created_at ∧
    exUpdatedRow.last_execution = exCreatedRow.last_execution := by
  refine ⟨rfl, ?_⟩
  obtain ⟨-, r, hfind, hfields⟩ := update_preserves_identity_fields
    (.valid "u1" "p1") { user_id := "u1", aud := "p1" } 1 exUpd 5 exStore
    exUpdatedRow { rows := [exUpdatedRow], next_id := 2 } rfl rfl
  have hr : r = exCreatedRow := by
    have : some r = some exCreatedRow := by rw [← hfind]; rfl
    injection this
  rw [← hr]
  exact hfields

/-! ## C5: two racing deletes — exactly one succeeds -/

theorem countMatch_deleteWhere (s : Store) (id : Int) (uid : String) :
    countMatch (deleteWhere s id uid).2 id uid = 0 := by
  simp only [countMatch, deleteWhere, List.length_eq_zero]
  rw [List.filter_eq_nil_iff]
  intro x hx
  simpa using (List.mem_filter.mp hx).2

theorem countMatch_zero_of_find_none (s : Store) (id : Int) (uid : String)
    (h : findByIdUser s id uid = none) : countMatch s id uid = 0 := by
  simp only [countMatch, List.length_eq_zero]
  rw [List.filter_eq_nil_iff]
  intro a ha
  simpa using List.find?_eq_none.mp h a ha

theorem countMatch_ne_zero_of_find_some (s : Store) (id : Int) (uid : String)
    (r : FCMSchedule) (h : findByIdUser s id uid = some r) :
    countMatch s id uid ≠ 0 := by
  have hmem : r ∈ s.rows.filter (matchesIdUser id uid) :=
    List.mem_filter.mpr ⟨List.mem_of_find?_eq_some h, List.find?_some h⟩
  simp only [countMatch]
  intro hnil
  rw [List.length_eq_zero.mp hnil] at hmem
  cases hmem

theorem raceInv_delStep (id : Int) (uid : String) (r0 : FCMSchedule)
    (t : DelThread) (s : Store) (o : Nat) (od : Bool)
    (ht : ThreadOk r0 t)
    (hsub : ∀ r ∈ s.rows, matchesIdUser id uid r = true → r = r0)
    (hsum : countMatch s id uid + okCount t + o = 1)
    (hdt : isDoneT t = true → countMatch s id uid = 0)
    (hdo : od = true → countMatch s id uid = 0) :
    ThreadOk r0 (delStep id uid t s).1 ∧
    (∀ r ∈ (delStep id uid t s).2.rows, matchesIdUser id uid r = true → r = r0) ∧
    countMatch (delStep id uid t s).2 id uid + okCount (delStep id uid t s).1 + o = 1 ∧
    (isDoneT (delStep id uid t s).1 = true →
       countMatch (delStep id uid t s).2 id uid = 0) ∧
    (od = true → countMatch (delStep id uid t s).2 id uid = 0) := by
  cases t with
  | start =>
    cases hfind : findByIdUser s id uid with
    | none =>
      have hz := countMatch_zero_of_find_none s id uid hfind
      simp only [delStep, hfind]
      exact ⟨Or.inr rfl, hsub, hsum, fun _ => hz, fun _ => hz⟩
    | some r =>
      have hr0 : r = r0 :=
        hsub r (List.mem_of_find?_eq_some hfind) (List.find?_some hfind)
      simp only [delStep, hfind]
      refine ⟨hr0, hsub, hsum, ?_, hdo⟩
      intro hfalse
      exact Bool.noConfusion hfalse
  | looked r =>
    have hz : countMatch (deleteWhere s id uid).2 id uid = 0 :=
      countMatch_deleteWhere s id uid
    have hfst : (deleteWhere s id uid).1 = countMatch s id uid := rfl
    have hsubd : ∀ x ∈ (deleteWhere s id uid).2.rows,
        matchesIdUser id uid x = true → x = r0 := by
      intro x hx hm
      exact hsub x (List.mem_filter.mp hx).1 hm
    by_cases hzero : (deleteWhere s id uid).1 = 0
    · simp only [delStep, hzero, if_pos]
      have hc0 : countMatch s id uid = 0 := by rw [← hfst]; exact hzero
      refine ⟨Or.inr rfl, hsubd, ?_, fun _ => hz, fun _ => hz⟩
      simp only [okCount] at hsum ⊢
      omega
    · simp only [delStep, if_neg hzero]
      have hcne : countMatch s id uid ≠ 0 := by rw [← hfst]; exact hzero
      have hres : ThreadOk r0 (DelThread.done (.ok r)) := Or.inl (by rw [ht])
      refine ⟨hres, hsubd, ?_, fun _ => hz, fun _ => hz⟩
      simp only [okCount] at hsum ⊢
      rw [hz]
      omega
  | done res =>
    exact ⟨ht, hsub, hsum, hdt, hdo⟩

theorem raceInv_raceStep (id : Int) (uid : String) (r0 : FCMSchedule)
    (b : Bool) (st : DelThread × DelThread × Store)
    (h : RaceInv id uid r0 st) : RaceInv id uid r0 (raceStep id uid b st) := by
  obtain ⟨h1, h2, hsub, hsum, hd1, hd2⟩ := h
  cases b with
  | true =>
    have hstep := raceInv_delStep id uid r0 st.1 st.2.2 (okCount st.2.1)
      (isDoneT st.2.1) h1 hsub hsum hd1 hd2
    exact ⟨hstep.1, h2, hstep.2.1, hstep.2.2.1, hstep.2.2.2.1, hstep.2.2.2.2⟩
  | false =>
    have hstep := raceInv_delStep id uid r0 st.2.1 st.2.2 (okCount st.1)
      (isDoneT st.1) h2 hsub (by omega) hd2 hd1
    refine ⟨h1, hstep.1, hstep.2.1, ?_, hstep.2.2.2.2, hstep.2.2.2.1⟩
    show countMatch (delStep id uid st.2.1 st.2.2).2 id uid + okCount st.1 +
      okCount (delStep id uid st.2.1 st.2.2).1 = 1
    have := hstep.2.2.1
    omega

theorem raceInv_runSched (id : Int) (uid : String) (r0 : FCMSchedule) :
    ∀ (sched : List Bool) (st : DelThread × DelThread × Store),
      RaceInv id uid r0 st → RaceInv id uid r0 (runSched id uid sched st) := by
  intro sched
  induction sched with
  | nil => intro st h; exact h
  | cons b rest ih =>
    intro st h
    exact ih _ (raceInv_raceStep id uid r0 b st h)

theorem raceInv_init (id : Int) (uid : String) (r0 : FCMSchedule) (s : Store)
    (huniq : s.rows.filter (matchesIdUser id uid) = [r0]) :
    RaceInv id uid r0 (.start, .start, s) := by
  refine ⟨trivial, trivial, ?_, ?_, ?_, ?_⟩
  · intro r hr hm
    have hmem : r ∈ s.rows.filter (matchesIdUser id uid) :=
      List.mem_filter.mpr ⟨hr, hm⟩
    rw [huniq] at hmem
    simpa using hmem
  · simp only [countMatch, okCount]
    rw [huniq]
    rfl
  · intro hfalse
    exact Bool.noConfusion hfalse
  · intro hfalse
    exact Bool.noConfusion hfalse

/-- C5: when two delete calls on the same (id, user) interleave in any
order over a store holding exactly one matching row, and both finish,
exactly one of them returns the record and the other receives the
not-found response; the conditional DELETE's affected-row count decides
which. -/
theorem delete_race_exactly_one_succeeds
    (id : Int) (uid : String) (s : Store) (r0 : FCMSchedule)
    (sched : List Bool) (res1 res2 : ApiResponse FCMSchedule) (s1 : Store)
    (huniq : s.rows.filter (matchesIdUser id uid) = [r0])
    (hrun : runSched id uid sched (.start, .start, s) =
      (.done res1, .done res2, s1)) :
    (res1 = .ok r0 ∧ res2 = .not_found "Schedule not found") ∨
    (res1 = .not_found "Schedule not found" ∧ res2 = .ok r0) := by
  have hinv := raceInv_runSched id uid r0 sched _ (raceInv_init id uid r0 s huniq)
  rw [hrun] at hinv
  obtain ⟨h1, h2, hsub, hsum, hd1, hd2⟩ := hinv
  have hc0 : countMatch s1 id uid = 0 := hd1 rfl
  have ho1 : res1 = .ok r0 ∨ res1 = .not_found "Schedule not found" := h1
  have ho2 : res2 = .ok r0 ∨ res2 = .not_found "Schedule not found" := h2
  have hsum' : countMatch s1 id uid + okCount (.done res1) + okCount (.done res2) = 1 :=
    hsum
  rw [hc0] at hsum'
  rcases ho1 with h1e | h1e <;> rcases ho2 with h2e | h2e
  · rw [h1e, h2e] at hsum'
    simp [okCount] at hsum'
  · exact Or.inl ⟨h1e, h2e⟩
  · exact Or.inr ⟨h1e, h2e⟩
  · rw [h1e, h2e] at hsum'
    simp [okCount] at hsum'

/-- Witness for C5: both threads look the row up first, the first DELETE
wins, the second thread then finds nothing. -/
theorem delete_race_witness :
    exStore.rows.filter (matchesIdUser 1 "u1") = [exCreatedRow] ∧
    runSched 1 "u1" [true, true, false] (.start, .start, exStore) =
      (.done (.ok exCreatedRow), .done (.not_found "Schedule not found"),
       { rows := [], next_id := 2 }) ∧
    ((ApiResponse.ok exCreatedRow = ApiResponse.ok exCreatedRow ∧
      (ApiResponse.not_found "Schedule not found" : ApiResponse FCMSchedule) =
        ApiResponse.not_found "Schedule not found") ∨
     (ApiResponse.ok exCreatedRow =
        (ApiResponse.not_found "Schedule not found" : ApiResponse FCMSchedule) ∧
      (ApiResponse.not_found "Schedule not found" : ApiResponse FCMSchedule) =
        ApiResponse.ok exCreatedRow)) :=
  ⟨rfl, rfl,
   delete_race_exactly_one_succeeds 1 "u1" exStore exCreatedRow
     [true, true, false] (.ok exCreatedRow)
     (.not_found "Schedule not found") { rows := [], next_id := 2 } rfl rfl⟩

end Toolkit
